import Mathlib

/-!
# Verification of the windowed-pagination core of `crypto_trading_project`

Shallow embedding of the row-count estimator, window planner, admission
control, datetime normalization and series assembly found in
`src/_utils.py` and `src/main.py`.

Modelling conventions:
* A naive Python `datetime` is modelled as an integer number of seconds on a
  timeline (seconds since the epoch).  All datetimes in the source have whole
  second resolution (they are parsed with `%H:%M:%S`), so integers are exact.
  Python's floor-convention `//` and `%` correspond to `Int.fdiv` / `Int.emod`.
* `timedelta.total_seconds()` of a difference of such datetimes is the integer
  difference; the float division in `get_row_count` is idealized as exact
  rational division (`ℚ`), and `math.ceil` / `round` become `⌈·⌉` and
  banker's rounding on `ℚ`.
* `pandas` dataframes of candle rows are lists of records; sorting a column of
  timezone-aware timestamps compares the underlying instants, which we model
  by sorting on the stored UTC instant.
-/

/-- Minute-of-hour of a datetime given as seconds on a timeline
(`datetime.minute` in Python). -/
def minuteOfDatetime (t : Int) : Int := (t.fdiv 60).emod 60

/-- Second-of-minute of a datetime given as seconds on a timeline
(`datetime.second` in Python). -/
def secondOfDatetime (t : Int) : Int := t.emod 60

/-- Python's built-in `round` on an exact value: round half to even
(banker's rounding), as applied by `get_row_count` to the float quotient. -/
def pyRound (q : Rat) : Int :=
  if q - ⌊q⌋ < 1/2 then ⌊q⌋
  else if (1 : Rat)/2 < q - ⌊q⌋ then ⌊q⌋ + 1
  else if ⌊q⌋ % 2 = 0 then ⌊q⌋ else ⌊q⌋ + 1

/-- Embedding of `get_row_count` (src/_utils.py, lines 144-206).

The function computes `diff_seconds / time_interval_in_seconds` and then
applies the interval-class dependent off-by-one correction:
`math.ceil` for `'1d'`; for `'1h'`/`'6h'` ceil when the end minute is
non-zero and `round(...) + 1` when it is zero; for `'15m'`/`'5m'`/`'1m'`
the same with the end second.  Any other interval string falls through all
branches and the raw quotient is returned, hence the return type `ℚ`.
The source performs no validation of the range. -/
def get_row_count (start_datetime end_datetime : Int) (time_interval : String)
    (time_interval_in_seconds : Int) : Rat :=
  let diff_seconds : Rat := ((end_datetime - start_datetime : Int) : Rat)
  let number_of_rows : Rat := diff_seconds / (time_interval_in_seconds : Rat)
  if time_interval = "1d" then
    (⌈number_of_rows⌉ : Rat)
  else if time_interval = "1h" ∨ time_interval = "6h" then
    if minuteOfDatetime end_datetime ≠ 0 then (⌈number_of_rows⌉ : Rat)
    else ((pyRound number_of_rows + 1 : Int) : Rat)
  else if time_interval = "15m" ∨ time_interval = "5m" ∨ time_interval = "1m" then
    if secondOfDatetime end_datetime ≠ 0 then (⌈number_of_rows⌉ : Rat)
    else ((pyRound number_of_rows + 1 : Int) : Rat)
  else number_of_rows

/-- The `while` loop of `get_date_ranges` (src/_utils.py, lines 239-248).
`temp_end` is the end of the window emitted so far; each iteration starts the
next window one interval after it, extends it by 290 intervals, clamps it to
`final_end` and emits it.  The loop in the source terminates only for a
positive interval duration, so the embedding carries that hypothesis for its
termination measure. -/
def get_date_ranges_loop (final_end time_interval_in_seconds : Int)
    (hd : 0 < time_interval_in_seconds) (temp_end : Int) : List (Int × Int) :=
  if h : temp_end < final_end then
    (temp_end + time_interval_in_seconds,
      if temp_end + time_interval_in_seconds + time_interval_in_seconds * 290 > final_end
        then final_end
        else temp_end + time_interval_in_seconds + time_interval_in_seconds * 290) ::
    get_date_ranges_loop final_end time_interval_in_seconds hd
      (if temp_end + time_interval_in_seconds + time_interval_in_seconds * 290 > final_end
        then final_end
        else temp_end + time_interval_in_seconds + time_interval_in_seconds * 290)
  else []
termination_by (final_end - temp_end).toNat
decreasing_by
  split <;> omega

/-- Embedding of `get_date_ranges` (src/_utils.py, lines 208-250): partitions
`[start_datetime, final_end_datetime]` into windows of at most 290 intervals,
each new window starting one interval after the previous window's end. -/
def get_date_ranges (start_datetime final_end_datetime : Int)
    (time_interval_in_seconds : Int) (hd : 0 < time_interval_in_seconds) :
    List (Int × Int) :=
  if start_datetime + time_interval_in_seconds * 290 ≥ final_end_datetime then
    [(start_datetime, final_end_datetime)]
  else
    (start_datetime, start_datetime + time_interval_in_seconds * 290) ::
      get_date_ranges_loop final_end_datetime time_interval_in_seconds hd
        (start_datetime + time_interval_in_seconds * 290)

/-- The candle timestamps a window `(start, end)` makes the API return for
interval duration `d`: the timestamps `start, start + d, start + 2d, ...`
that do not exceed `end` (the exchange treats both endpoints inclusively). -/
def covers (d : Int) (w : Int × Int) (t : Int) : Prop :=
  ∃ k : ℕ, t = w.1 + (k : Int) * d ∧ t ≤ w.2

/-- Model of a `pytz` timezone as used by `Candles.__init__`
(src/main.py, lines 216-224 and 288-290).

* `offsetAtLocal t` is the UTC offset (in seconds) that
  `tz.localize(naive_dt)` attaches to the naive local instant `t`.  `pytz`'s
  `localize` is called with its default `is_dst=False`, which always picks an
  offset - also for wall-clock times that are ambiguous or nonexistent under
  the zone's DST rules - and never raises.  `astimezone(pytz.utc)` then yields
  the instant `t - offsetAtLocal t`.
* `offsetAtUtc u` is the UTC offset the zone applies at the UTC instant `u`,
  used by `tz_convert` when displaying fetched timestamps: the local wall
  clock of the instant `u` is `u + offsetAtUtc u` (always unambiguous).
* `ambiguousOrNonexistent t` marks the naive local instants that are
  ambiguous or nonexistent at a DST transition; the source never consults
  this information. -/
structure PytzTimezone where
  offsetAtLocal : Int → Int
  offsetAtUtc : Int → Int
  ambiguousOrNonexistent : Int → Bool

/-- `tz.localize(naive_local).astimezone(pytz.utc)` for a naive local datetime:
total, resolving DST edges via the `is_dst=False` default. -/
def pytzLocalizeToUtc (tz : PytzTimezone) (t : Int) : Int :=
  t - tz.offsetAtLocal t

/-- Embedding of the datetime-normalization part of `Candles.__init__`
(src/main.py, lines 207-224).  `start_date`/`end_date` are the parsed dates as
day numbers, `start_time`/`end_time` the parsed times as seconds of the day.
For the `'1d'` interval the times are overridden to `00:00:00` and `23:59:59`
and the combined datetimes stay naive; for every other interval the combined
local datetimes are converted to UTC through the local timezone. -/
def candles_span (time_interval : String) (start_date end_date : Int)
    (start_time end_time : Int) (tz : PytzTimezone) : Int × Int :=
  let start_time := if time_interval = "1d" then 0 else start_time
  let end_time := if time_interval = "1d" then 86399 else end_time
  let start_datetime := start_date * 86400 + start_time
  let end_datetime := end_date * 86400 + end_time
  if time_interval ≠ "1d" then
    (pytzLocalizeToUtc tz start_datetime, pytzLocalizeToUtc tz end_datetime)
  else
    (start_datetime, end_datetime)

/-- The one failure the admission control of `Candles.__init__` can raise
before fetching (src/main.py, lines 238-244). -/
inductive CandlesError where
  | RowLimitExceeded
  deriving DecidableEq, Repr

/-- Embedding of the admission-control and planning part of `Candles.__init__`
(src/main.py, lines 231-252): compute the estimated row count, reject with
`RowLimitExceeded` when it exceeds 5000 - in which case no window list is ever
produced and no candlestick HTTP request is issued - and otherwise return the
planned windows, one HTTP request per window. -/
def candles_requests (start_datetime end_datetime : Int) (time_interval : String)
    (time_interval_in_seconds : Int) (hd : 0 < time_interval_in_seconds) :
    Except CandlesError (List (Int × Int)) :=
  if get_row_count start_datetime end_datetime time_interval time_interval_in_seconds
      > 5000 then
    .error .RowLimitExceeded
  else
    .ok (get_date_ranges start_datetime end_datetime time_interval_in_seconds hd)

/-- One raw candle row as returned by the exchange and renamed by
`Candles.__init__` (src/main.py, line 270): an epoch-seconds timestamp and the
five price/volume columns. -/
structure CandleRow where
  datetime : Int
  low : Rat
  high : Rat
  open_ : Rat
  close : Rat
  volume : Rat
  deriving DecidableEq, Repr

/-- One row of the final dataframe `Candles.df` (src/main.py, lines 296-304):
a calendar date, an optional `start_time` column (dropped for the daily
interval) and the price/volume columns. -/
structure OutRow where
  date : Int
  start_time : Option Int
  open_ : Rat
  high : Rat
  low : Rat
  close : Rat
  volume : Rat
  deriving DecidableEq, Repr

/-- Concatenation of the per-window batches followed by
`df.sort_values(by=['datetime'])` (src/main.py, lines 283 and 293).  Sorting a
column of timezone-aware timestamps orders by the underlying UTC instant, so
the sort key is the stored instant regardless of the display timezone. -/
def candles_sorted_rows (batches : List (List CandleRow)) : List CandleRow :=
  List.insertionSort (fun a b => a.datetime ≤ b.datetime) batches.flatten

/-- Embedding of the series-assembly part of `Candles.__init__`
(src/main.py, lines 283-306): concatenate the batches, sort ascending by
timestamp, and extract the output columns.  For a non-daily interval the
timestamp is first converted from UTC to the caller's local timezone
(`tz_convert`, which only changes the wall clock used for the `date` and
`start_time` columns, not the instant), and the `start_time` column is kept;
for the daily interval the UTC wall clock is used and `start_time` is
dropped. -/
def candles_assemble (time_interval : String) (tz : PytzTimezone)
    (batches : List (List CandleRow)) : List OutRow :=
  (candles_sorted_rows batches).map (fun r =>
    let wall :=
      if time_interval = "1d" then r.datetime
      else r.datetime + tz.offsetAtUtc r.datetime
    { date := wall.fdiv 86400
      start_time := if time_interval = "1d" then none else some (wall.emod 86400)
      open_ := r.open_
      high := r.high
      low := r.low
      close := r.close
      volume := r.volume })

/-! ## Helper lemmas about the window-planner loop -/

theorem sixty_pos : (0 : Int) < 60 := by norm_num

theorem get_date_ranges_loop_eq_of_lt (final_end d : Int) (hd : 0 < d)
    (temp_end : Int) (h : temp_end < final_end) :
    get_date_ranges_loop final_end d hd temp_end =
      (temp_end + d,
        if temp_end + d + d * 290 > final_end then final_end
          else temp_end + d + d * 290) ::
      get_date_ranges_loop final_end d hd
        (if temp_end + d + d * 290 > final_end then final_end
          else temp_end + d + d * 290) := by
  rw [get_date_ranges_loop]
  simp [h]

theorem get_date_ranges_loop_eq_of_ge (final_end d : Int) (hd : 0 < d)
    (temp_end : Int) (h : ¬ temp_end < final_end) :
    get_date_ranges_loop final_end d hd temp_end = [] := by
  rw [get_date_ranges_loop]
  simp [h]

theorem covers_left_le (d : Int) (hd : 0 < d) (w : Int × Int) (t : Int)
    (hc : covers d w t) : w.1 ≤ t := by
  obtain ⟨k, hk, -⟩ := hc
  have : (0 : Int) ≤ (k : Int) * d := mul_nonneg (Int.natCast_nonneg k) hd.le
  omega

/-- All invariants of the `while` loop of `get_date_ranges` at once, proved by
strong induction on the remaining distance to `final_end`:
window starts stay beyond `temp_end + d`; spans are at most 290 intervals;
window ends never pass `final_end`; consecutive windows are contiguous with
every non-final window spanning exactly 290 intervals; the loop's windows
cover exactly the interval grid of `(temp_end + d, final_end]`; and no
timestamp is covered by two windows. -/
theorem get_date_ranges_loop_master (final_end d : Int) (hd : 0 < d) :
    ∀ n : ℕ, ∀ temp_end : Int, (final_end - temp_end).toNat = n →
      temp_end ≤ final_end →
      (∀ w ∈ get_date_ranges_loop final_end d hd temp_end, temp_end + d ≤ w.1) ∧
      (∀ w ∈ get_date_ranges_loop final_end d hd temp_end, w.2 - w.1 ≤ d * 290) ∧
      (∀ w ∈ get_date_ranges_loop final_end d hd temp_end, w.2 ≤ final_end) ∧
      List.Chain' (fun a b => b.1 = a.2 + d ∧ a.2 = a.1 + d * 290)
        (get_date_ranges_loop final_end d hd temp_end) ∧
      (∀ t : Int,
        (∃ w ∈ get_date_ranges_loop final_end d hd temp_end, covers d w t) ↔
          ((∃ k : ℕ, t = (temp_end + d) + (k : Int) * d) ∧ t ≤ final_end)) ∧
      List.Pairwise (fun w1 w2 => ∀ t : Int, covers d w1 t → ¬ covers d w2 t)
        (get_date_ranges_loop final_end d hd temp_end) := by
  intro n
  induction n using Nat.strong_induction_on with
  | _ n ih =>
    intro te hn hte
    by_cases h : te < final_end
    · rw [get_date_ranges_loop_eq_of_lt final_end d hd te h]
      set t2 := if te + d + d * 290 > final_end then final_end else te + d + d * 290
        with ht2
      have h290 : (0 : Int) < d * 290 := by positivity
      have ht2a : te < t2 := by rw [ht2]; split <;> omega
      have ht2b : t2 ≤ final_end := by rw [ht2]; split <;> omega
      have ht2c : t2 ≤ te + d + d * 290 := by rw [ht2]; split <;> omega
      by_cases h2 : t2 < final_end
      · -- the emitted window is a full, unclamped window and the loop recurses
        have ht2eq : t2 = te + d + d * 290 := by
          rw [ht2]; split
          · omega
          · rfl
        obtain ⟨ih1, ih2, ih3, ih4, ih5, ih6⟩ :=
          ih (final_end - t2).toNat (by omega) t2 rfl h2.le
        refine ⟨?_, ?_, ?_, ?_, ?_, ?_⟩
        · intro w hw
          rcases List.mem_cons.mp hw with hw | hw
          · rw [hw]
          · have := ih1 w hw
            omega
        · intro w hw
          rcases List.mem_cons.mp hw with hw | hw
          · rw [hw]
            simp only []
            omega
          · exact ih2 w hw
        · intro w hw
          rcases List.mem_cons.mp hw with hw | hw
          · rw [hw]
            exact ht2b
          · exact ih3 w hw
        · rw [List.chain'_cons']
          refine ⟨?_, ih4⟩
          intro b hb
          rw [get_date_ranges_loop_eq_of_lt final_end d hd t2 h2] at hb
          simp only [List.head?_cons, Option.mem_some_iff] at hb
          rw [← hb]
          exact ⟨rfl, ht2eq⟩
        · intro t
          constructor
          · rintro ⟨w, hw, hcov⟩
            rcases List.mem_cons.mp hw with hw | hw
            · rw [hw] at hcov
              obtain ⟨k, hk, hle⟩ := hcov
              exact ⟨⟨k, hk⟩, by omega⟩
            · obtain ⟨⟨k, hk⟩, hle⟩ := (ih5 t).mp ⟨w, hw, hcov⟩
              refine ⟨⟨291 + k, ?_⟩, hle⟩
              rw [ht2eq] at hk
              push_cast
              linear_combination hk
          · rintro ⟨⟨k, hk⟩, hle⟩
            by_cases hsplit : t ≤ t2
            · exact ⟨(te + d, t2), List.mem_cons_self _ _, ⟨k, hk, hsplit⟩⟩
            · have hgt : t2 < t := not_le.mp hsplit
              have hkd : (290 : Int) * d < (k : Int) * d := by
                rw [ht2eq] at hgt
                nlinarith [hk, hgt]
              have hk290 : (290 : Int) < (k : Int) :=
                lt_of_mul_lt_mul_right hkd hd.le
              have hk291 : 291 ≤ k := by omega
              have heq : t = (t2 + d) + ((k - 291 : ℕ) : Int) * d := by
                have hc : ((k - 291 : ℕ) : Int) = (k : Int) - 291 := by omega
                rw [hc, ht2eq]
                linear_combination hk
              obtain ⟨w, hw, hcov⟩ := (ih5 t).mpr ⟨⟨k - 291, heq⟩, hle⟩
              exact ⟨w, List.mem_cons_of_mem _ hw, hcov⟩
        · rw [List.pairwise_cons]
          refine ⟨?_, ih6⟩
          intro w hw t hct hcw
          obtain ⟨k, hk, hle⟩ := hct
          have h1 := ih1 w hw
          have h2' := covers_left_le d hd w t hcw
          simp only [] at hle
          omega
      · -- the emitted window is clamped to `final_end` and the loop stops
        have hfin : t2 = final_end := le_antisymm ht2b (not_lt.mp h2)
        rw [get_date_ranges_loop_eq_of_ge final_end d hd t2 h2]
        refine ⟨?_, ?_, ?_, ?_, ?_, ?_⟩
        · intro w hw
          rcases List.mem_cons.mp hw with hw | hw
          · rw [hw]
          · simp at hw
        · intro w hw
          rcases List.mem_cons.mp hw with hw | hw
          · rw [hw]
            simp only []
            omega
          · simp at hw
        · intro w hw
          rcases List.mem_cons.mp hw with hw | hw
          · rw [hw]
            exact ht2b
          · simp at hw
        · simp
        · intro t
          constructor
          · rintro ⟨w, hw, hcov⟩
            rcases List.mem_cons.mp hw with hw | hw
            · rw [hw] at hcov
              obtain ⟨k, hk, hle⟩ := hcov
              exact ⟨⟨k, hk⟩, by omega⟩
            · simp at hw
          · rintro ⟨⟨k, hk⟩, hle⟩
            exact ⟨(te + d, t2), List.mem_cons_self _ _, ⟨k, hk, by omega⟩⟩
        · simp
    · rw [get_date_ranges_loop_eq_of_ge final_end d hd te h]
      have hfe : te = final_end := le_antisymm hte (not_lt.mp h)
      refine ⟨by simp, by simp, by simp, by simp, ?_, by simp⟩
      intro t
      constructor
      · rintro ⟨w, hw, -⟩
        simp at hw
      · rintro ⟨⟨k, hk⟩, hle⟩
        exfalso
        have hnn : (0 : Int) ≤ (k : Int) * d := mul_nonneg (Int.natCast_nonneg k) hd.le
        omega

/-! ## Claims about the window planner -/

/-- C2: for `start ≤ end` and a positive interval duration `d`, the list
returned by `get_date_ranges` is ordered (window starts strictly increase),
each consecutive pair satisfies `start_{i+1} = end_i + d`, every window
satisfies `(end_i - start_i)/d ≤ 290`, the union of the timestamps
`start_i, start_i + d, ..., end_i` over all windows equals exactly the set
`{start, start + d, ...}` intersected with `[start, end]`, and no timestamp
is covered by two windows. -/
theorem get_date_ranges_invariants (s e d : Int) (hd : 0 < d) (_hse : s ≤ e) :
    List.Pairwise (fun w1 w2 => w1.1 < w2.1) (get_date_ranges s e d hd) ∧
    List.Chain' (fun w1 w2 => w2.1 = w1.2 + d) (get_date_ranges s e d hd) ∧
    (∀ w ∈ get_date_ranges s e d hd,
      ((w.2 - w.1 : Int) : Rat) / (d : Rat) ≤ 290) ∧
    (∀ t : Int,
      (∃ w ∈ get_date_ranges s e d hd, covers d w t) ↔
        ((∃ k : ℕ, t = s + (k : Int) * d) ∧ t ≤ e)) ∧
    List.Pairwise (fun w1 w2 => ∀ t : Int, covers d w1 t → ¬ covers d w2 t)
      (get_date_ranges s e d hd) := by
  have hdQ : (0 : Rat) < (d : Rat) := by exact_mod_cast hd
  have h290 : (0 : Int) < d * 290 := by positivity
  -- it suffices to bound spans in the integers
  have spanQ : ∀ w : Int × Int, w.2 - w.1 ≤ d * 290 →
      ((w.2 - w.1 : Int) : Rat) / (d : Rat) ≤ 290 := by
    intro w hw
    rw [div_le_iff₀ hdQ]
    have : ((w.2 - w.1 : Int) : Rat) ≤ ((d * 290 : Int) : Rat) := by exact_mod_cast hw
    push_cast at this ⊢
    linarith
  by_cases hb : s + d * 290 ≥ e
  · -- a single window
    simp only [get_date_ranges, if_pos hb]
    refine ⟨by simp, by simp, ?_, ?_, by simp⟩
    · intro w hw
      simp only [List.mem_singleton] at hw
      subst hw
      exact spanQ (s, e) (by simp only []; omega)
    · intro t
      constructor
      · rintro ⟨w, hw, hcov⟩
        simp only [List.mem_singleton] at hw
        subst hw
        obtain ⟨k, hk, hle⟩ := hcov
        exact ⟨⟨k, hk⟩, hle⟩
      · rintro ⟨⟨k, hk⟩, hle⟩
        exact ⟨(s, e), List.mem_singleton_self _, ⟨k, hk, hle⟩⟩
  · -- several windows
    have hlt : s + d * 290 < e := not_le.mp hb
    simp only [get_date_ranges, if_neg hb]
    obtain ⟨m1, m2, m3, m4, m5, m6⟩ :=
      get_date_ranges_loop_master e d hd (e - (s + d * 290)).toNat (s + d * 290)
        rfl hlt.le
    have hheadlink :
        ∀ b ∈ (get_date_ranges_loop e d hd (s + d * 290)).head?,
          b.1 = (s, s + d * 290).2 + d ∧ (s, s + d * 290).2 = (s, s + d * 290).1 + d * 290 := by
      intro b hb'
      rw [get_date_ranges_loop_eq_of_lt e d hd (s + d * 290) hlt] at hb'
      simp only [List.head?_cons, Option.mem_some_iff] at hb'
      rw [← hb']
      exact ⟨rfl, rfl⟩
    have hchain :
        List.Chain' (fun a b => b.1 = a.2 + d ∧ a.2 = a.1 + d * 290)
          ((s, s + d * 290) :: get_date_ranges_loop e d hd (s + d * 290)) := by
      rw [List.chain'_cons']
      exact ⟨hheadlink, m4⟩
    refine ⟨?_, ?_, ?_, ?_, ?_⟩
    · -- starts strictly increase
      haveI : IsTrans (Int × Int) (fun w1 w2 : Int × Int => w1.1 < w2.1) :=
        ⟨fun _ _ _ hab hbc => lt_trans hab hbc⟩
      rw [← List.chain'_iff_pairwise]
      refine List.Chain'.imp ?_ hchain
      rintro a b ⟨hb1, hb2⟩
      omega
    · exact List.Chain'.imp (fun a b hab => hab.1) hchain
    · intro w hw
      rcases List.mem_cons.mp hw with hw | hw
      · subst hw
        exact spanQ _ (by simp only []; omega)
      · exact spanQ w (m2 w hw)
    · intro t
      constructor
      · rintro ⟨w, hw, hcov⟩
        rcases List.mem_cons.mp hw with hw | hw
        · subst hw
          obtain ⟨k, hk, hle⟩ := hcov
          exact ⟨⟨k, hk⟩, by omega⟩
        · obtain ⟨⟨k, hk⟩, hle⟩ := (m5 t).mp ⟨w, hw, hcov⟩
          refine ⟨⟨291 + k, ?_⟩, hle⟩
          push_cast
          linear_combination hk
      · rintro ⟨⟨k, hk⟩, hle⟩
        by_cases hsplit : t ≤ s + d * 290
        · exact ⟨(s, s + d * 290), List.mem_cons_self _ _, ⟨k, hk, hsplit⟩⟩
        · have hgt : s + d * 290 < t := not_le.mp hsplit
          have hkd : (290 : Int) * d < (k : Int) * d := by nlinarith [hk, hgt]
          have hk290 : (290 : Int) < (k : Int) := lt_of_mul_lt_mul_right hkd hd.le
          have hk291 : 291 ≤ k := by omega
          have heq : t = (s + d * 290 + d) + ((k - 291 : ℕ) : Int) * d := by
            have hc : ((k - 291 : ℕ) : Int) = (k : Int) - 291 := by omega
            rw [hc]
            linear_combination hk
          obtain ⟨w, hw, hcov⟩ := (m5 t).mpr ⟨⟨k - 291, heq⟩, hle⟩
          exact ⟨w, List.mem_cons_of_mem _ hw, hcov⟩
    · rw [List.pairwise_cons]
      refine ⟨?_, m6⟩
      intro w hw t hct hcw
      obtain ⟨k, hk, hle⟩ := hct
      have hwl := m1 w hw
      have hwt := covers_left_le d hd w t hcw
      simp only [] at hle
      omega

/-- Witness for `get_date_ranges_invariants`: the hypotheses hold and the
theorem applies at `start = 0`, `end = 100`, `d = 60`. -/
theorem get_date_ranges_invariants_witness :
    (0 : Int) < 60 ∧ (0 : Int) ≤ 100 ∧
    (List.Pairwise (fun w1 w2 => w1.1 < w2.1) (get_date_ranges 0 100 60 sixty_pos) ∧
    List.Chain' (fun w1 w2 => w2.1 = w1.2 + 60) (get_date_ranges 0 100 60 sixty_pos) ∧
    (∀ w ∈ get_date_ranges 0 100 60 sixty_pos,
      ((w.2 - w.1 : Int) : Rat) / ((60 : Int) : Rat) ≤ 290) ∧
    (∀ t : Int,
      (∃ w ∈ get_date_ranges 0 100 60 sixty_pos, covers 60 w t) ↔
        ((∃ k : ℕ, t = 0 + (k : Int) * 60) ∧ t ≤ 100)) ∧
    List.Pairwise (fun w1 w2 => ∀ t : Int, covers 60 w1 t → ¬ covers 60 w2 t)
      (get_date_ranges 0 100 60 sixty_pos)) :=
  ⟨sixty_pos, by norm_num, get_date_ranges_invariants 0 100 60 sixty_pos (by norm_num)⟩

/-- C3: the `start_i ≤ end_i` window invariant is violated by the code.  For
`start = 0`, `end = 17430`, `d = 60` (a span of 290.5 one-minute intervals,
reachable e.g. from a 291-day daily request ending at 23:59:59), the final
window emitted is `(17460, 17430)`, whose start exceeds its end. -/
theorem get_date_ranges_inverted_window :
    get_date_ranges 0 17430 60 sixty_pos = [(0, 17400), (17460, 17430)] ∧
    ¬ ((17460 : Int) ≤ 17430) := by
  constructor
  · simp only [get_date_ranges]
    norm_num
    rw [get_date_ranges_loop_eq_of_lt 17430 60 sixty_pos 17400 (by norm_num)]
    norm_num
    rw [get_date_ranges_loop_eq_of_ge 17430 60 sixty_pos 17430 (by norm_num)]
  · norm_num

/-- C4, counterexample: for a span requiring exactly 650 one-minute candles
(`start = 0`, `end = 38940 = 649 * 60` with an aligned end second, so
`get_row_count` returns 650), `get_date_ranges` does return 3 windows and
window 2 starts one minute after window 1 ends, but the windows' spans in
interval units are 290, 290 and 67 - the third window does not span 70
intervals as the claim states. -/
theorem get_date_ranges_650_counterexample :
    get_row_count 0 38940 "1m" 60 = 650 ∧
    get_date_ranges 0 38940 60 sixty_pos =
      [(0, 17400), (17460, 34860), (34920, 38940)] ∧
    ¬ ((38940 - 34920 : Int) = 70 * 60) := by
  refine ⟨?_, ?_, by norm_num⟩
  · have hs : secondOfDatetime 38940 = 0 := by decide
    norm_num [get_row_count, hs, pyRound]
    decide
  · simp only [get_date_ranges]
    norm_num
    rw [get_date_ranges_loop_eq_of_lt 38940 60 sixty_pos 17400 (by norm_num)]
    norm_num
    rw [get_date_ranges_loop_eq_of_lt 38940 60 sixty_pos 34860 (by norm_num)]
    norm_num
    rw [get_date_ranges_loop_eq_of_ge 38940 60 sixty_pos 38940 (by norm_num)]

/-- C4, amended: for a span requiring 650 one-minute candles (`start = 0`,
`end = 38940`, interval duration 60 s, `get_row_count` = 650),
`get_date_ranges` returns exactly 3 windows whose spans in interval units are
290, 290 and 67 (i.e. 291, 291 and 68 candles), and the second window's start
equals the first window's end plus 60 seconds. -/
theorem get_date_ranges_650_amended :
    get_row_count 0 38940 "1m" 60 = 650 ∧
    get_date_ranges 0 38940 60 sixty_pos =
      [(0, 17400), (17460, 34860), (34920, 38940)] ∧
    (17400 - 0 : Int) = 290 * 60 ∧
    (34860 - 17460 : Int) = 290 * 60 ∧
    (38940 - 34920 : Int) = 67 * 60 ∧
    (17460 : Int) = 17400 + 60 := by
  refine ⟨?_, ?_, by norm_num, by norm_num, by norm_num, by norm_num⟩
  · have hs : secondOfDatetime 38940 = 0 := by decide
    norm_num [get_row_count, hs, pyRound]
    decide
  · simp only [get_date_ranges]
    norm_num
    rw [get_date_ranges_loop_eq_of_lt 38940 60 sixty_pos 17400 (by norm_num)]
    norm_num
    rw [get_date_ranges_loop_eq_of_lt 38940 60 sixty_pos 34860 (by norm_num)]
    norm_num
    rw [get_date_ranges_loop_eq_of_ge 38940 60 sixty_pos 38940 (by norm_num)]

/-! ## Claims about the row-count estimator -/

/-- C1: for `start ≤ end`, `get_row_count` returns `ceil` of the quotient for
`'1d'`; for `'1h'`/`'6h'` it returns `ceil` of the quotient when the end's
minute-of-hour is non-zero and `round(quotient) + 1` when the minute is zero;
for `'1m'`/`'5m'`/`'15m'` the same with the end's second-of-minute; and in
particular start 2023-01-01 12:00:00, end 2023-01-01 14:00:00 (epoch seconds
1672574400 and 1672581600) with interval `'1h'` yields 3. -/
theorem get_row_count_cases (s e d : Int) (_hse : s ≤ e) :
    (get_row_count s e "1d" d = (⌈((e - s : Int) : Rat) / ((d : Int) : Rat)⌉ : Rat)) ∧
    (∀ ti : String, (ti = "1h" ∨ ti = "6h") →
      (minuteOfDatetime e ≠ 0 →
        get_row_count s e ti d = (⌈((e - s : Int) : Rat) / ((d : Int) : Rat)⌉ : Rat)) ∧
      (minuteOfDatetime e = 0 →
        get_row_count s e ti d =
          ((pyRound (((e - s : Int) : Rat) / ((d : Int) : Rat)) + 1 : Int) : Rat))) ∧
    (∀ ti : String, (ti = "1m" ∨ ti = "5m" ∨ ti = "15m") →
      (secondOfDatetime e ≠ 0 →
        get_row_count s e ti d = (⌈((e - s : Int) : Rat) / ((d : Int) : Rat)⌉ : Rat)) ∧
      (secondOfDatetime e = 0 →
        get_row_count s e ti d =
          ((pyRound (((e - s : Int) : Rat) / ((d : Int) : Rat)) + 1 : Int) : Rat))) ∧
    get_row_count 1672574400 1672581600 "1h" 3600 = 3 := by
  refine ⟨?_, ?_, ?_, ?_⟩
  · simp [get_row_count]
  · rintro ti (rfl | rfl) <;>
      exact ⟨fun hm => by simp [get_row_count, hm], fun hm => by simp [get_row_count, hm]⟩
  · rintro ti (rfl | rfl | rfl) <;>
      exact ⟨fun hsec => by simp [get_row_count, hsec], fun hsec => by simp [get_row_count, hsec]⟩
  · have hm : minuteOfDatetime 1672581600 = 0 := by decide
    norm_num [get_row_count, hm, pyRound]
    decide

/-- Witness for `get_row_count_cases` at the claim's concrete scenario. -/
theorem get_row_count_cases_witness :
    (1672574400 : Int) ≤ 1672581600 ∧
    get_row_count 1672574400 1672581600 "1h" 3600 = 3 ∧
    get_row_count 1672574400 1672581600 "1d" 3600 =
      (⌈((1672581600 - 1672574400 : Int) : Rat) / (((3600 : Int) : Int) : Rat)⌉ : Rat) := by
  have h := get_row_count_cases 1672574400 1672581600 3600 (by norm_num)
  exact ⟨by norm_num, h.2.2.2, h.1⟩

theorem pyRound_nonneg (q : Rat) (hq : 0 ≤ q) : 0 ≤ pyRound q := by
  have hf : 0 ≤ ⌊q⌋ := Int.floor_nonneg.mpr hq
  unfold pyRound
  split_ifs <;> omega

/-- C5, counterexample: `get_row_count` performs no range validation at all.
At `start = 86400`, `end = 0` (so `end < start`) with interval `'1d'` it does
not fail with anything like `InvalidRange`; it silently evaluates to the
negative count `-1`. -/
theorem get_row_count_no_range_check :
    get_row_count 86400 0 "1d" 86400 = ((-1 : Int) : Rat) ∧ (0 : Int) < 86400 := by
  refine ⟨?_, by norm_num⟩
  have harg : (((0 : Int) - (86400 : Int) : Int) : Rat) / (((86400 : Int)) : Rat)
      = ((-1 : Int) : Rat) := by
    push_cast
    norm_num
  simp only [get_row_count, harg]
  simp only [if_true, Int.ceil_intCast]

/-- C5, amended: `get_row_count` does not validate its range (for
`end < start` it returns a possibly negative number instead of failing, see
the counterexample), but for every pair with `end ≥ start`, a positive
interval duration and a supported interval symbol it returns a non-negative
integer. -/
theorem get_row_count_nonneg_integer (s e d : Int) (ti : String)
    (hse : s ≤ e) (hd : 0 < d)
    (hti : ti = "1d" ∨ ti = "1h" ∨ ti = "6h" ∨ ti = "15m" ∨ ti = "5m" ∨ ti = "1m") :
    ∃ n : ℕ, get_row_count s e ti d = (n : Rat) := by
  set q : Rat := ((e - s : Int) : Rat) / ((d : Int) : Rat) with hqdef
  have hq : 0 ≤ q := by
    rw [hqdef]
    apply div_nonneg
    · exact_mod_cast sub_nonneg.mpr hse
    · exact_mod_cast hd.le
  have hforms : get_row_count s e ti d = (⌈q⌉ : Rat) ∨
      get_row_count s e ti d = ((pyRound q + 1 : Int) : Rat) := by
    rcases hti with rfl | rfl | rfl | rfl | rfl | rfl
    · left
      simp [get_row_count, hqdef]
    · by_cases hm : minuteOfDatetime e = 0
      · right
        simp [get_row_count, hm, hqdef]
      · left
        simp [get_row_count, hm, hqdef]
    · by_cases hm : minuteOfDatetime e = 0
      · right
        simp [get_row_count, hm, hqdef]
      · left
        simp [get_row_count, hm, hqdef]
    · by_cases hsec : secondOfDatetime e = 0
      · right
        simp [get_row_count, hsec, hqdef]
      · left
        simp [get_row_count, hsec, hqdef]
    · by_cases hsec : secondOfDatetime e = 0
      · right
        simp [get_row_count, hsec, hqdef]
      · left
        simp [get_row_count, hsec, hqdef]
    · by_cases hsec : secondOfDatetime e = 0
      · right
        simp [get_row_count, hsec, hqdef]
      · left
        simp [get_row_count, hsec, hqdef]
  rcases hforms with hform | hform
  · refine ⟨⌈q⌉.toNat, ?_⟩
    rw [hform]
    exact_mod_cast (Int.toNat_of_nonneg (Int.ceil_nonneg hq)).symm
  · refine ⟨(pyRound q + 1).toNat, ?_⟩
    rw [hform]
    have h1 : 0 ≤ pyRound q + 1 := by
      have := pyRound_nonneg q hq
      omega
    exact_mod_cast (Int.toNat_of_nonneg h1).symm

/-- Witness for `get_row_count_nonneg_integer` at a one-day daily request. -/
theorem get_row_count_nonneg_integer_witness :
    (0 : Int) ≤ 86399 ∧ (0 : Int) < 86400 ∧
    (("1d" : String) = "1d" ∨ ("1d" : String) = "1h" ∨ ("1d" : String) = "6h" ∨
      ("1d" : String) = "15m" ∨ ("1d" : String) = "5m" ∨ ("1d" : String) = "1m") ∧
    ∃ n : ℕ, get_row_count 0 86399 "1d" 86400 = (n : Rat) :=
  ⟨by norm_num, by norm_num, Or.inl rfl,
    get_row_count_nonneg_integer 0 86399 86400 "1d" (by norm_num) (by norm_num)
      (Or.inl rfl)⟩

/-! ## Admission control -/

/-- C6: whenever the estimated row count exceeds 5000, `Candles.__init__`
fails with the row-limit error before building the window list, so no
candlestick HTTP request is ever issued; whenever the estimate is at most
5000 the admission check passes and the planned windows are produced.  In
particular an estimate of 5001 (600 000 seconds of one-minute candles with an
aligned end) fails. -/
theorem row_limit_admission (s e : Int) (ti : String) (d : Int) (hd : 0 < d) :
    (get_row_count s e ti d > 5000 →
      candles_requests s e ti d hd = .error .RowLimitExceeded) ∧
    (get_row_count s e ti d ≤ 5000 →
      candles_requests s e ti d hd = .ok (get_date_ranges s e d hd)) ∧
    get_row_count 0 300000 "1m" 60 = 5001 ∧
    candles_requests 0 300000 "1m" 60 sixty_pos = .error .RowLimitExceeded := by
  have hrc : get_row_count 0 300000 "1m" 60 = 5001 := by
    have hs : secondOfDatetime 300000 = 0 := by decide
    norm_num [get_row_count, hs, pyRound]
    decide
  refine ⟨?_, ?_, hrc, ?_⟩
  · intro h
    simp only [candles_requests, if_pos h]
  · intro h
    simp only [candles_requests, if_neg (not_lt.mpr h)]
  · simp only [candles_requests, hrc]
    norm_num

/-- Witness for `row_limit_admission`: both admission outcomes exercised at
concrete inputs. -/
theorem row_limit_admission_witness :
    (0 : Int) < 60 ∧
    get_row_count 0 300000 "1m" 60 > 5000 ∧
    candles_requests 0 300000 "1m" 60 sixty_pos = .error .RowLimitExceeded ∧
    get_row_count 0 60 "1m" 60 ≤ 5000 ∧
    candles_requests 0 60 "1m" 60 sixty_pos = .ok (get_date_ranges 0 60 60 sixty_pos) := by
  have h := row_limit_admission 0 300000 "1m" 60 sixty_pos
  have hgt : get_row_count 0 300000 "1m" 60 > 5000 := by
    rw [h.2.2.1]
    norm_num
  have hle : get_row_count 0 60 "1m" 60 ≤ 5000 := by
    have hs : secondOfDatetime 60 = 0 := by decide
    norm_num [get_row_count, hs, pyRound]
    decide
  exact ⟨sixty_pos, hgt, h.1 hgt,
    hle, (row_limit_admission 0 60 "1m" 60 sixty_pos).2.1 hle⟩

/-! ## Datetime normalization -/

/-- C7: for the `'1d'` interval the span is always built from `00:00:00` and
`23:59:59` regardless of the caller-supplied times, and no timezone conversion
is applied (the result does not depend on the timezone at all); for every
other interval the combined caller datetimes are converted from the local
timezone to UTC. -/
theorem daily_span_override (sd ed st et : Int) (tz : PytzTimezone) :
    candles_span "1d" sd ed st et tz = (sd * 86400, ed * 86400 + 86399) ∧
    (∀ ti : String, ti ≠ "1d" →
      candles_span ti sd ed st et tz =
        (pytzLocalizeToUtc tz (sd * 86400 + st),
         pytzLocalizeToUtc tz (ed * 86400 + et))) := by
  constructor
  · simp [candles_span]
  · intro ti h
    simp [candles_span, h]

/-- A concrete model timezone: America/New_York around the DST fall-back of
2023-11-05.  `localize` with `is_dst=False` picks the standard offset
UTC-5 = -18000 s; the local wall-clock hour [01:00, 02:00) of that day
(absolute local seconds [1699146000, 1699149600)) is ambiguous. -/
def tzNewYorkModel : PytzTimezone where
  offsetAtLocal := fun _ => -18000
  offsetAtUtc := fun _ => -18000
  ambiguousOrNonexistent := fun t => decide (1699146000 ≤ t ∧ t < 1699149600)

/-- Witness for `daily_span_override`, discharging the non-daily hypothesis
at interval `'1h'`. -/
theorem daily_span_override_witness :
    candles_span "1d" 19358 19360 43200 50400 tzNewYorkModel =
      (19358 * 86400, 19360 * 86400 + 86399) ∧
    ("1h" : String) ≠ "1d" ∧
    candles_span "1h" 19358 19360 43200 50400 tzNewYorkModel =
      (pytzLocalizeToUtc tzNewYorkModel (19358 * 86400 + 43200),
       pytzLocalizeToUtc tzNewYorkModel (19360 * 86400 + 50400)) := by
  have h := daily_span_override 19358 19360 43200 50400 tzNewYorkModel
  exact ⟨h.1, by decide, h.2 "1h" (by decide)⟩

/-- C8, counterexample: the code never fails on ambiguous local times.  The
naive local datetime 2023-11-05 01:30:00 (day 19666, 5400 s of the day) is in
the ambiguous fall-back hour of the model New York timezone, yet for the
sub-daily interval `'1h'` the normalization silently resolves it with the
standard offset (`is_dst=False` default of `pytz.localize`) and returns a
span instead of failing with anything like `AmbiguousLocalTime`. -/
theorem ambiguous_local_time_counterexample :
    tzNewYorkModel.ambiguousOrNonexistent (19666 * 86400 + 5400) = true ∧
    candles_span "1h" 19666 19666 5400 9000 tzNewYorkModel =
      (19666 * 86400 + 5400 + 18000, 19666 * 86400 + 9000 + 18000) := by
  constructor
  · decide
  · simp [candles_span, pytzLocalizeToUtc, tzNewYorkModel]

/-- C8, amended: for sub-daily requests an ambiguous or nonexistent local
wall-clock time never causes a failure: `pytz.localize` is called with its
default `is_dst=False`, which deterministically resolves the time to the
standard-time offset, so the normalization is total and returns the resolved
UTC span. -/
theorem ambiguous_local_time_resolved (ti : String) (hti : ti ≠ "1d")
    (tz : PytzTimezone) (sd ed st et : Int)
    (_hamb : tz.ambiguousOrNonexistent (sd * 86400 + st) = true) :
    candles_span ti sd ed st et tz =
      (sd * 86400 + st - tz.offsetAtLocal (sd * 86400 + st),
       ed * 86400 + et - tz.offsetAtLocal (ed * 86400 + et)) := by
  simp [candles_span, pytzLocalizeToUtc, hti]

/-- Witness for `ambiguous_local_time_resolved` at the ambiguous instant
2023-11-05 01:30:00 in the model New York timezone. -/
theorem ambiguous_local_time_resolved_witness :
    ("1h" : String) ≠ "1d" ∧
    tzNewYorkModel.ambiguousOrNonexistent (19666 * 86400 + 5400) = true ∧
    candles_span "1h" 19666 19666 5400 9000 tzNewYorkModel =
      (19666 * 86400 + 5400 - tzNewYorkModel.offsetAtLocal (19666 * 86400 + 5400),
       19666 * 86400 + 9000 - tzNewYorkModel.offsetAtLocal (19666 * 86400 + 9000)) :=
  ⟨by decide, by decide,
    ambiguous_local_time_resolved "1h" (by decide) tzNewYorkModel 19666 19666 5400 9000
      (by decide)⟩

/-! ## Series assembly -/

/-- C9: the assembled series is sorted ascending by timestamp whatever order
the batches' rows arrive in; for the `'1d'` interval every output row drops
the `start_time` column (leaving date, open, high, low, close, volume) and
dates are taken from the UTC instant; for every other interval the instants
are converted from UTC to the caller's local timezone and the `start_time`
column is kept. -/
theorem assemble_sorted_and_columns (ti : String) (tz : PytzTimezone)
    (batches : List (List CandleRow)) :
    List.Sorted (fun a b => a ≤ b)
      ((candles_sorted_rows batches).map CandleRow.datetime) ∧
    (ti = "1d" → candles_assemble ti tz batches =
      (candles_sorted_rows batches).map (fun r =>
        { date := r.datetime.fdiv 86400
          start_time := none
          open_ := r.open_
          high := r.high
          low := r.low
          close := r.close
          volume := r.volume })) ∧
    (ti ≠ "1d" → candles_assemble ti tz batches =
      (candles_sorted_rows batches).map (fun r =>
        { date := (r.datetime + tz.offsetAtUtc r.datetime).fdiv 86400
          start_time := some ((r.datetime + tz.offsetAtUtc r.datetime).emod 86400)
          open_ := r.open_
          high := r.high
          low := r.low
          close := r.close
          volume := r.volume })) := by
  refine ⟨?_, ?_, ?_⟩
  · haveI : IsTotal CandleRow (fun a b => a.datetime ≤ b.datetime) :=
      ⟨fun a b => le_total a.datetime b.datetime⟩
    haveI : IsTrans CandleRow (fun a b => a.datetime ≤ b.datetime) :=
      ⟨fun _ _ _ hab hbc => le_trans hab hbc⟩
    simp only [candles_sorted_rows]
    exact List.Pairwise.map _ (fun a b hab => hab)
      (List.sorted_insertionSort _ batches.flatten)
  · intro h
    subst h
    simp [candles_assemble]
  · intro h
    simp [candles_assemble, h]

/-- A sample fetched row used to instantiate the assembly theorem. -/
def sampleRow : CandleRow where
  datetime := 1672531200
  low := 16490
  high := 16621
  open_ := 16531
  close := 16611
  volume := 10668

/-- Witness for `assemble_sorted_and_columns`: both interval hypotheses
discharged at concrete inputs. -/
theorem assemble_sorted_and_columns_witness :
    candles_assemble "1d" tzNewYorkModel [[sampleRow]] =
      (candles_sorted_rows [[sampleRow]]).map (fun r =>
        { date := r.datetime.fdiv 86400
          start_time := none
          open_ := r.open_
          high := r.high
          low := r.low
          close := r.close
          volume := r.volume }) ∧
    ("1h" : String) ≠ "1d" ∧
    candles_assemble "1h" tzNewYorkModel [[sampleRow]] =
      (candles_sorted_rows [[sampleRow]]).map (fun r =>
        { date := (r.datetime + tzNewYorkModel.offsetAtUtc r.datetime).fdiv 86400
          start_time := some ((r.datetime + tzNewYorkModel.offsetAtUtc r.datetime).emod 86400)
          open_ := r.open_
          high := r.high
          low := r.low
          close := r.close
          volume := r.volume }) :=
  ⟨(assemble_sorted_and_columns "1d" tzNewYorkModel [[sampleRow]]).2.1 rfl,
    by decide,
    (assemble_sorted_and_columns "1h" tzNewYorkModel [[sampleRow]]).2.2 (by decide)⟩

/-! ## Unsupported interval strings -/

/-- C10: for any interval string outside the supported set, `get_row_count`
does not fail: it falls through every correction branch and returns the raw
quotient `(end - start) / time_interval_in_seconds` with no ceiling, rounding
or `+1` adjustment (so the result need not be an integer). -/
theorem get_row_count_fallthrough (s e d : Int) (ti : String)
    (h1 : ti ≠ "1d") (h2 : ti ≠ "1h") (h3 : ti ≠ "6h")
    (h4 : ti ≠ "15m") (h5 : ti ≠ "5m") (h6 : ti ≠ "1m") :
    get_row_count s e ti d = ((e - s : Int) : Rat) / ((d : Int) : Rat) := by
  simp [get_row_count, h1, h2, h3, h4, h5, h6]

/-- Witness for `get_row_count_fallthrough`: the unsupported string `'2h'`
yields the non-integer raw quotient 1/2. -/
theorem get_row_count_fallthrough_witness :
    ("2h" : String) ≠ "1d" ∧ ("2h" : String) ≠ "1h" ∧ ("2h" : String) ≠ "6h" ∧
    ("2h" : String) ≠ "15m" ∧ ("2h" : String) ≠ "5m" ∧ ("2h" : String) ≠ "1m" ∧
    get_row_count 0 1800 "2h" 3600 = 1/2 := by
  refine ⟨by decide, by decide, by decide, by decide, by decide, by decide, ?_⟩
  rw [get_row_count_fallthrough 0 1800 3600 "2h" (by decide) (by decide) (by decide)
    (by decide) (by decide) (by decide)]
  norm_num
